import Mathlib

/-!
Verification of the mcp-use server runtime (server.py, context.py):
log-level gate, resource-subscription table, resource-update broadcast,
middleware pipeline, sampling-message handling and elicitation schemas,
shallowly embedded in Lean 4.
-/

namespace MCPUse

/-! ## Log-level gate (context.py, server.py) -/

/-- `_LOG_LEVEL_ORDER` from context.py: the eight MCP log levels ordered by
severity (lowest to highest), as an association list mirroring the dict. -/
def LOG_LEVEL_ORDER : List (String × Nat) :=
  [("debug", 0), ("info", 1), ("notice", 2), ("warning", 3),
   ("error", 4), ("critical", 5), ("alert", 6), ("emergency", 7)]

/-- The eight recognized level names, in order. -/
def logLevelNames : List String := LOG_LEVEL_ORDER.map Prod.fst

/-- `_LOG_LEVEL_ORDER.get(level, 0)`: dict lookup with default 0. -/
def logLevelRank (level : String) : Nat :=
  match LOG_LEVEL_ORDER.find? (fun p => p.1 == level) with
  | some p => p.2
  | none => 0

/-- Default `_client_log_level` set in `_register_default_protocol_handlers`
(server.py line 301): send all levels. -/
def defaultClientLogLevel : String := "debug"

/-- `_handle_set_logging_level` (server.py lines 303-305): stores `str(level)`
unconditionally as the new gate state; on a level string, `str` is the
identity. Returns the stored gate state. -/
def handle_set_logging_level (level : String) : String := level

/-- One `send_log_message` call as performed by `Context.log`
(context.py lines 55-60): level, data, logger name, related request id. -/
structure LogSend where
  level : String
  data : String
  logger : Option String
  relatedRequestId : String
deriving DecidableEq, Repr

/-- `Context.log` (context.py lines 31-60): compares the rank of `level`
against the rank of the client's gate state (both via dict-get with default
0) and either suppresses the message or performs exactly one
`send_log_message` call. The returned list is the list of sends performed. -/
def Context.log (clientLogLevel : String) (level : String) (message : String)
    (loggerName : Option String) (requestId : String) : List LogSend :=
  if logLevelRank level < logLevelRank clientLogLevel then []
  else [⟨level, message, loggerName, requestId⟩]

end MCPUse

namespace MCPUse

/-! ## Resource-subscription table (server.py) -/

/-- A session's identity: `id(session)` in the source. -/
abbrev SessionId := Nat

/-- `_resource_subscriptions: dict[str, set[int]]` (server.py line 308),
embedded as an association list from URI to the subscriber set.  A Python
dict never holds two entries with the same key; `KeysNodup` states that
invariant explicitly where a proof needs it. -/
abbrev SubTable := List (String × Finset SessionId)

/-- The Python-dict invariant: no two entries share a key. -/
def KeysNodup (t : SubTable) : Prop := (t.map Prod.fst).Nodup

/-- `self._resource_subscriptions.get(uri)`: `none` when the URI has no
entry. -/
def subsFind (t : SubTable) (uri : String) : Option (Finset SessionId) :=
  (t.find? (fun p => p.1 == uri)).map Prod.snd

/-- The subscriber set of a URI, empty when the URI has no entry. -/
def subsLookupD (t : SubTable) (uri : String) : Finset SessionId :=
  (subsFind t uri).getD ∅

/-- `self._resource_subscriptions.setdefault(str(uri), set()).add(id(session))`
(server.py line 314): insert the session id into the URI's set, creating the
entry if absent. -/
def subscribeOp (t : SubTable) (uri : String) (sid : SessionId) : SubTable :=
  if (t.find? (fun p => p.1 == uri)).isSome then
    t.map (fun p => if p.1 == uri then (p.1, insert sid p.2) else p)
  else
    t ++ [(uri, {sid})]

/-- `_handle_subscribe` (server.py lines 310-314): a no-op when no current
session resolves (`if session:`). -/
def handle_subscribe (t : SubTable) (uri : String) (session : Option SessionId) :
    SubTable :=
  match session with
  | some sid => subscribeOp t uri sid
  | none => t

/-- Body of `_handle_unsubscribe` once a session resolved (server.py lines
320-324): `get` the subscriber set; when truthy, `discard` the session id and
`del` the URI entry if the set became empty. -/
def unsubscribeOp (t : SubTable) (uri : String) (sid : SessionId) : SubTable :=
  match subsFind t uri with
  | none => t
  | some subs =>
    if subs = ∅ then t
    else
      let subs' := subs.erase sid
      if subs' = ∅ then t.filter (fun p => ¬ p.1 == uri)
      else t.map (fun p => if p.1 == uri then (p.1, subs') else p)

/-- `_handle_unsubscribe` (server.py lines 316-324): a no-op when no current
session resolves. -/
def handle_unsubscribe (t : SubTable) (uri : String)
    (session : Option SessionId) : SubTable :=
  match session with
  | some sid => unsubscribeOp t uri sid
  | none => t

/-- Modelled from the spec: `drop_session(session)` lives in the middleware
session layer (`MiddlewareServerSession`), which is not under src/.  Per
§4.2 it is "called on disconnect; removes the session from every URI's
subscriber set, cleaning up empty entries". -/
def drop_session (t : SubTable) (sid : SessionId) : SubTable :=
  (t.map (fun p => (p.1, p.2.erase sid))).filter (fun p => ¬ p.2 = ∅)

/-- The protocol events that mutate the subscription table. -/
inductive SubEvent where
  | subscribe (uri : String) (session : Option SessionId)
  | unsubscribe (uri : String) (session : Option SessionId)
  | disconnect (sid : SessionId)
deriving DecidableEq, Repr

/-- One table transition per event. -/
def subStep (t : SubTable) : SubEvent → SubTable
  | .subscribe uri s => handle_subscribe t uri s
  | .unsubscribe uri s => handle_unsubscribe t uri s
  | .disconnect sid => drop_session t sid

/-- The table reached from the empty initial table by a list of events. -/
def runEvents (evs : List SubEvent) : SubTable := evs.foldl subStep []

/-- Scans events most-recent-first: `(uri, sid)` is active when the most
recent event touching that pair is a subscribe with a resolved session. -/
def activeSubAux (uri : String) (sid : SessionId) : List SubEvent → Bool
  | [] => false
  | .subscribe u (some s) :: rest =>
      (u == uri && s == sid) || activeSubAux uri sid rest
  | .unsubscribe u (some s) :: rest =>
      if u == uri && s == sid then false else activeSubAux uri sid rest
  | .disconnect s :: rest =>
      if s == sid then false else activeSubAux uri sid rest
  | _ :: rest => activeSubAux uri sid rest

/-- `(uri, sid)` has a subscribe with no later matching unsubscribe or
disconnect in `evs`. -/
def activeSub (evs : List SubEvent) (uri : String) (sid : SessionId) : Bool :=
  activeSubAux uri sid evs.reverse

/-! ## Resource-update broadcast (server.py, `notify_resource_updated`) -/

/-- One active transport session as seen by the broadcast loop: its identity
`id(session)` and whether its `send_resource_updated` call succeeds (a send
to a disconnecting session raises). -/
structure Session where
  sid : SessionId
  sendOk : Bool
deriving DecidableEq, Repr

/-- One delivered `notifications/resources/updated` message. -/
structure Delivery where
  sid : SessionId
  uri : String
deriving DecidableEq, Repr

/-- `session.send_resource_updated(uri=uri)` (server.py line 360): a
collaborator primitive that may raise; `Except.error` models the raise. -/
def send_resource_updated (s : Session) (uri : String) : Except Unit Delivery :=
  if s.sendOk then .ok ⟨s.sid, uri⟩ else .error ()

/-- The `for session in list(_active_sessions)` loop of
`notify_resource_updated` (server.py lines 357-362): sessions whose id is in
the subscriber set get one send attempt; a raise is caught by the
`except Exception: pass` and the loop continues. Returns the successful
deliveries in loop order. -/
def notifyLoop (subscribers : Finset SessionId) (uri : String) :
    List Session → List Delivery
  | [] => []
  | s :: rest =>
    if s.sid ∈ subscribers then
      match send_resource_updated s uri with
      | .ok d => d :: notifyLoop subscribers uri rest
      | .error _ => notifyLoop subscribers uri rest
    else notifyLoop subscribers uri rest

/-- `notify_resource_updated` (server.py lines 342-362) as a function of the
subscription table and the active-session registry.  `active` stands for
`list(MiddlewareServerSession._active_sessions)`; the registry class is not
under src/, and per spec §4.1 it holds "the set of currently active
transport sessions", so an iteration yields each session at most once
(`Nodup` hypotheses in the theorems).  Returns the deliveries performed and
the table afterwards. -/
def notify_resource_updated (t : SubTable) (active : List Session)
    (uri : String) : List Delivery × SubTable :=
  match subsFind t uri with
  | none => ([], t)
  | some subscribers =>
    if subscribers = ∅ then ([], t)
    else (notifyLoop subscribers uri active, t)

/-! ## Middleware pipeline

`MiddlewareManager.process_request` lives under `mcp_use/server/middleware`,
which is not under src/; the chain below is modelled from spec §4.4: each
interceptor receives the context and a "call next" continuation, the
innermost continuation is the terminal handler, and an interceptor may
rewrite the context before forwarding, rewrite the result flowing back, or
short-circuit by returning without calling next.  Contexts and results are
embedded as `Nat`. -/

/-- Modelled from the spec: what an interceptor does with a given context —
short-circuit with a value, or forward with a context rewrite applied before
the next link and a result rewrite applied to what flows back. -/
inductive IAction where
  | shortCircuit (v : Nat)
  | forward (rewriteCtx : Nat → Nat) (rewriteRes : Nat → Nat)

/-- Modelled from the spec: an interceptor decides its action from the
context it receives. -/
def Interceptor := Nat → IAction

/-- Trace events of one dispatch: interceptor `i` was invoked, or the
terminal handler ran. -/
inductive MWEvent where
  | enter (i : Nat)
  | terminal
deriving DecidableEq, Repr

/-- Modelled from the spec: the nested middleware chain.  Processes the
(index, interceptor) list outermost-first; returns the result and the trace
of invocations. -/
def processChain : List (Nat × Interceptor) → Nat → (Nat → Nat) →
    Nat × List MWEvent
  | [], ctx, T => (T ctx, [MWEvent.terminal])
  | (i, mw) :: rest, ctx, T =>
    match mw ctx with
    | .shortCircuit v => (v, [MWEvent.enter i])
    | .forward f g =>
      let r := processChain rest (f ctx) T
      (g r.1, MWEvent.enter i :: r.2)

/-- Modelled from the spec: `process(context, terminal_handler)` over the
chain in registration order. -/
def process (mws : List Interceptor) (ctx : Nat) (T : Nat → Nat) :
    Nat × List MWEvent :=
  processChain mws.enum ctx T

/-- Whether some interceptor of the chain short-circuits the given dispatch
before the terminal handler is reached. -/
def chainShortCircuits : List Interceptor → Nat → Bool
  | [], _ => false
  | mw :: rest, ctx =>
    match mw ctx with
    | .shortCircuit _ => true
    | .forward f _ => chainShortCircuits rest (f ctx)

/-! ## Elicitation schemas (context.py, `elicit` / `_dataclass_to_model`) -/

/-- The field types the elicitation round-trip claim uses. -/
inductive PyType where
  | str
  | int
deriving DecidableEq, Repr

/-- A Python value of one of those types. -/
inductive PyValue where
  | str (s : String)
  | int (n : Int)
deriving DecidableEq, Repr

/-- One dataclass field as `dataclasses.fields` reports it: name, declared
type, `default` (`none` for `MISSING`) and `default_factory` (`none` for
`MISSING`, otherwise the value the factory produces). -/
structure DCField where
  name : String
  ftype : PyType
  default : Option PyValue
  default_factory : Option PyValue
deriving DecidableEq, Repr

/-- The default slot of a synthesized pydantic model field: a plain default,
a `Field(default_factory=...)`, or `...` (required). -/
inductive ModelDefault where
  | val (v : PyValue)
  | factory (v : PyValue)
  | required
deriving DecidableEq, Repr

/-- One field of the synthesized validation model. -/
structure ModelField where
  name : String
  ftype : PyType
  default : ModelDefault
deriving DecidableEq, Repr

/-- `Context._dataclass_to_model` (context.py lines 185-199): each dataclass
field maps to `(field.type, default)` where the default is `field.default`
when not `MISSING`, else `Field(default_factory=field.default_factory)` when
that is not `MISSING`, else `...` (required). -/
def Context.dataclass_to_model (flds : List DCField) : List ModelField :=
  flds.map fun f =>
    ⟨f.name, f.ftype,
      match f.default with
      | some v => .val v
      | none =>
        match f.default_factory with
        | some v => .factory v
        | none => .required⟩

/-- Whether a value inhabits a declared field type. -/
def valueMatches : PyValue → PyType → Bool
  | .str _, .str => true
  | .int _, .int => true
  | _, _ => false

/-- Modelled from the spec: validation of one field of an acceptance
response against the synthesized model (the validation model itself is an
external collaborator; spec §4.6 and §6 describe it): a provided value must
match the declared type, a missing value falls back to the default or the
default factory, and a field with neither is required. -/
def validateField (content : List (String × PyValue)) (f : ModelField) :
    Option PyValue :=
  match content.find? (fun p => p.1 == f.name) with
  | some p => if valueMatches p.2 f.ftype then some p.2 else none
  | none =>
    match f.default with
    | .val v => some v
    | .factory v => some v
    | .required => none

/-- Modelled from the spec: validation of a whole acceptance payload,
producing the field assignment `model_dump` reports (model field order). -/
def validateModel (m : List ModelField) (content : List (String × PyValue)) :
    Option (List (String × PyValue)) :=
  m.mapM fun f => (validateField content f).map fun v => (f.name, v)

/-- The client's elicitation response action (spec §6:
`{action: accept|decline|cancel, content?}`). -/
inductive ElicitAction where
  | accept
  | decline
  | cancel
deriving DecidableEq, Repr

/-- The outcome `Context.elicit` produces for a dataclass schema: on accept,
`result.data = dataclass_schema(**result.data.model_dump())`, here the field
assignment of the reconstructed dataclass instance; decline and cancel carry
no data; a payload failing model validation raises in the external layer. -/
inductive ElicitOutcome where
  | accepted (data : List (String × PyValue))
  | declined
  | cancelled
  | validationError
deriving DecidableEq, Repr

/-- `Context.elicit` (context.py lines 152-166) for a dataclass schema,
applied to the client's response: synthesizes the model via
`_dataclass_to_model`, and on an accepted response converts the validated
generic data back into an instance of the original dataclass. -/
def Context.elicit (flds : List DCField) (action : ElicitAction)
    (content : List (String × PyValue)) : ElicitOutcome :=
  let model := Context.dataclass_to_model flds
  match action with
  | .accept =>
    match validateModel model content with
    | some data => .accepted data
    | none => .validationError
  | .decline => .declined
  | .cancel => .cancelled

/-- The `UserInput` dataclass of the round-trip claim:
`name: str = "Anonymous"`, `age: int = 0`. -/
def UserInputFields : List DCField :=
  [⟨"name", .str, some (.str "Anonymous"), none⟩,
   ⟨"age", .int, some (.int 0), none⟩]

/-! ## Sampling messages (context.py, `sample` / `_text_message`) -/

/-- One element of the `messages` argument of `Context.sample`: a plain
string or a fully specified sampling message. -/
inductive SampleMessage where
  | text (s : String)
  | message (role : String) (text : String)
deriving DecidableEq, Repr

/-- `Context._text_message` (context.py lines 168-173): wraps a string as a
user-role text sampling message.  Defined in the source but never called. -/
def Context.text_message (text : String) : SampleMessage :=
  .message "user" text

/-- The `messages` value `Context.sample` hands to
`session.create_message` (context.py lines 93-103): the argument is
forwarded unchanged — no element is inspected or converted. -/
def Context.sampleMessagesSent (messages : List SampleMessage) :
    List SampleMessage :=
  messages

/-- Modelled from the spec: the coercion §4.6 describes for `sample` —
plain text elements are coerced to a user-role message, fully specified
messages pass through. -/
def specSampleCoercion (messages : List SampleMessage) : List SampleMessage :=
  messages.map fun m =>
    match m with
    | .text s => Context.text_message s
    | .message r x => .message r x

/-- C1: with no prior `logging/setLevel` the gate state is `"debug"` and
`Context.log` performs exactly one send at every one of the eight levels;
after the gate is set to a level `L2`, logging at `L1` performs no send when
`rank L1 < rank L2` and otherwise exactly one send carrying the level, the
message, the logger name and the originating request id. -/
theorem C1_log_gate (L1 L2 msg : String) (lg : Option String) (rid : String) :
    defaultClientLogLevel = "debug"
    ∧ (∀ L ∈ logLevelNames,
        Context.log defaultClientLogLevel L msg lg rid = [⟨L, msg, lg, rid⟩])
    ∧ (logLevelRank L1 < logLevelRank L2 →
        Context.log (handle_set_logging_level L2) L1 msg lg rid = [])
    ∧ (¬ logLevelRank L1 < logLevelRank L2 →
        Context.log (handle_set_logging_level L2) L1 msg lg rid
          = [⟨L1, msg, lg, rid⟩]) := by
  refine ⟨rfl, ?_, ?_, ?_⟩
  · intro L _
    simp [Context.log, defaultClientLogLevel, logLevelRank, LOG_LEVEL_ORDER,
      List.find?]
  · intro h
    simp [Context.log, handle_set_logging_level, h]
  · intro h
    simp [Context.log, handle_set_logging_level, h]

/-- Witness for C1 at the spec's concrete scenario: gate set to `"warning"`,
`log("info", "x")` sends nothing, `log("error", "y")` sends once. -/
theorem C1_log_gate_witness :
    Context.log defaultClientLogLevel "debug" "m" none "r"
      = [⟨"debug", "m", none, "r"⟩]
    ∧ Context.log (handle_set_logging_level "warning") "info" "x" none "r" = []
    ∧ Context.log (handle_set_logging_level "warning") "error" "y" none "r"
      = [⟨"error", "y", none, "r"⟩] :=
  ⟨(C1_log_gate "info" "warning" "m" none "r").2.1 "debug" (by decide),
   (C1_log_gate "info" "warning" "x" none "r").2.2.1 (by decide),
   (C1_log_gate "error" "warning" "y" none "r").2.2.2 (by decide)⟩

/-- C5: an unrecognized level name passed to `logging/setLevel` is stored
literally, gets rank 0 via the dict fallback, and every subsequent log call
at any of the eight levels produces exactly one send. -/
theorem C5_unrecognized_level_permissive (L2 msg : String) (lg : Option String)
    (rid : String) (h : L2 ∉ logLevelNames) :
    handle_set_logging_level L2 = L2
    ∧ logLevelRank (handle_set_logging_level L2) = 0
    ∧ (∀ L ∈ logLevelNames,
        Context.log (handle_set_logging_level L2) L msg lg rid
          = [⟨L, msg, lg, rid⟩]) := by
  have hrank : logLevelRank L2 = 0 := by
    have hnone : LOG_LEVEL_ORDER.find? (fun p => p.1 == L2) = none := by
      rw [List.find?_eq_none]
      intro p hp
      simp only [beq_iff_eq]
      intro hpe
      exact h (hpe ▸ List.mem_map_of_mem Prod.fst hp)
    simp [logLevelRank, hnone]
  refine ⟨rfl, hrank, ?_⟩
  intro L hL
  simp only [Context.log, handle_set_logging_level, hrank]
  simp

/-- Witness for C5 at the unrecognized level name `"verbose"`. -/
theorem C5_unrecognized_level_permissive_witness :
    "verbose" ∉ logLevelNames
    ∧ logLevelRank (handle_set_logging_level "verbose") = 0
    ∧ Context.log (handle_set_logging_level "verbose") "emergency" "m" none "r"
      = [⟨"emergency", "m", none, "r"⟩] :=
  ⟨by decide,
   (C5_unrecognized_level_permissive "verbose" "m" none "r" (by decide)).2.1,
   (C5_unrecognized_level_permissive "verbose" "m" none "r" (by decide)).2.2
     "emergency" (by decide)⟩

/-! ### Subscription-table lemmas -/

theorem subsFind_nil (uri : String) : subsFind [] uri = none := rfl

theorem subsFind_cons_self (hd : String × Finset SessionId) (tl : SubTable)
    (uri : String) (h : hd.1 = uri) :
    subsFind (hd :: tl) uri = some hd.2 := by
  unfold subsFind
  rw [List.find?_cons_of_pos]
  · rfl
  · simp [h]

theorem subsFind_cons_of_ne (hd : String × Finset SessionId) (tl : SubTable)
    (uri : String) (h : ¬ hd.1 = uri) :
    subsFind (hd :: tl) uri = subsFind tl uri := by
  unfold subsFind
  rw [List.find?_cons_of_neg]
  simp [h]

theorem find?_map_keyPreserving (t : SubTable)
    (f : String × Finset SessionId → String × Finset SessionId)
    (hf : ∀ p, (f p).1 = p.1) (uri : String) :
    (t.map f).find? (fun p => p.1 == uri)
      = (t.find? (fun p => p.1 == uri)).map f := by
  rw [List.find?_map]
  have hpred : ((fun p : String × Finset SessionId => p.1 == uri) ∘ f)
      = fun p : String × Finset SessionId => p.1 == uri := by
    funext p
    simp [Function.comp, hf]
  rw [hpred]

theorem subsFind_mapUpdate (t : SubTable) (key uri : String)
    (g : Finset SessionId → Finset SessionId) :
    subsFind (t.map fun p => if p.1 == key then (p.1, g p.2) else p) uri
      = if key = uri then (subsFind t uri).map g else subsFind t uri := by
  have hf : ∀ p : String × Finset SessionId,
      ((if p.1 == key then (p.1, g p.2) else p) : String × Finset SessionId).1
        = p.1 := by
    intro p
    by_cases h : p.1 == key <;> simp [h]
  unfold subsFind
  rw [find?_map_keyPreserving t _ hf uri]
  cases hfind : t.find? (fun p => p.1 == uri) with
  | none => split <;> simp
  | some p =>
    have hp : p.1 = uri := by
      have := List.find?_some hfind
      simpa using this
    by_cases hku : key = uri
    · subst hku
      simp [hp]
    · have hpk : ¬ p.1 = key := by rw [hp]; exact fun h => hku h.symm
      simp [hku, hpk]

theorem subsFind_filterNe (t : SubTable) (key uri : String) :
    subsFind (t.filter fun p => ¬ p.1 == key) uri
      = if key = uri then none else subsFind t uri := by
  induction t with
  | nil => split <;> simp [subsFind]
  | cons hd tl ih =>
    by_cases hk : hd.1 = key
    · have hfilter :
          (hd :: tl).filter (fun p => ¬ p.1 == key)
            = tl.filter (fun p => ¬ p.1 == key) := by
        simp [List.filter_cons, hk]
      rw [hfilter, ih]
      by_cases hu : key = uri
      · simp [hu]
      · rw [if_neg hu, if_neg hu, subsFind_cons_of_ne _ _ _ (by rw [hk]; exact hu)]
    · have hfilter :
          (hd :: tl).filter (fun p => ¬ p.1 == key)
            = hd :: tl.filter (fun p => ¬ p.1 == key) := by
        simp [List.filter_cons, hk]
      rw [hfilter]
      by_cases hu : hd.1 = uri
      · have hku : ¬ key = uri := fun h => hk (by rw [hu, h])
        rw [if_neg hku, subsFind_cons_self _ _ _ hu, subsFind_cons_self _ _ _ hu]
      · rw [subsFind_cons_of_ne _ _ _ hu, ih]
        by_cases h2 : key = uri
        · simp [h2]
        · rw [if_neg h2, if_neg h2, subsFind_cons_of_ne _ _ _ hu]

theorem subsFind_subscribeOp (t : SubTable) (uri : String) (sid : SessionId)
    (u' : String) :
    subsFind (subscribeOp t uri sid) u'
      = if uri = u' then some (insert sid (subsLookupD t uri))
        else subsFind t u' := by
  unfold subscribeOp
  by_cases h : (t.find? (fun p => p.1 == uri)).isSome
  · rw [if_pos h, subsFind_mapUpdate]
    by_cases hu : uri = u'
    · rw [if_pos hu, if_pos hu]
      subst hu
      cases hfind : t.find? (fun p => p.1 == uri) with
      | none => rw [hfind] at h; simp at h
      | some p => simp [subsFind, subsLookupD, hfind]
    · rw [if_neg hu, if_neg hu]
  · rw [if_neg h]
    have hnone : t.find? (fun p => p.1 == uri) = none :=
      Option.not_isSome_iff_eq_none.mp h
    by_cases hu : uri = u'
    · subst hu
      rw [if_pos rfl]
      unfold subsFind subsLookupD subsFind
      rw [List.find?_append, hnone]
      simp
    · rw [if_neg hu]
      unfold subsFind
      rw [List.find?_append]
      have hlast : List.find? (fun p => p.1 == u')
          ([(uri, ({sid} : Finset SessionId))]) = none := by
        rw [List.find?_eq_none]
        intro x hx
        simp only [List.mem_singleton] at hx
        subst hx
        simp [hu]
      rw [hlast, Option.or_none]

theorem subscribeOp_of_isSome (t : SubTable) (uri : String) (sid : SessionId)
    (h : (t.find? (fun p => p.1 == uri)).isSome) :
    subscribeOp t uri sid
      = t.map (fun p => if p.1 == uri then (p.1, insert sid p.2) else p) := by
  unfold subscribeOp
  rw [if_pos h]

theorem subscribeOp_of_none (t : SubTable) (uri : String) (sid : SessionId)
    (h : t.find? (fun p => p.1 == uri) = none) :
    subscribeOp t uri sid = t ++ [(uri, {sid})] := by
  unfold subscribeOp
  rw [if_neg (by simp [h])]

theorem subscribeOp_idem (t : SubTable) (uri : String) (sid : SessionId) :
    subscribeOp (subscribeOp t uri sid) uri sid = subscribeOp t uri sid := by
  have hf : ∀ p : String × Finset SessionId,
      ((if p.1 == uri then (p.1, insert sid p.2) else p) :
        String × Finset SessionId).1 = p.1 := by
    intro p
    by_cases hp : p.1 == uri <;> simp [hp]
  by_cases h : (t.find? (fun p => p.1 == uri)).isSome
  · have hT := subscribeOp_of_isSome t uri sid h
    have h' : ((subscribeOp t uri sid).find? (fun p => p.1 == uri)).isSome := by
      rw [hT, find?_map_keyPreserving _ _ hf, Option.isSome_map']
      exact h
    rw [subscribeOp_of_isSome _ uri sid h', hT, List.map_map]
    congr 1
    funext p
    by_cases hp : p.1 = uri
    · simp [Function.comp, hp, Finset.insert_idem]
    · simp [Function.comp, hp]
  · have hnone : t.find? (fun p => p.1 == uri) = none :=
      Option.not_isSome_iff_eq_none.mp h
    have hT := subscribeOp_of_none t uri sid hnone
    have h' : ((subscribeOp t uri sid).find? (fun p => p.1 == uri)).isSome := by
      rw [hT, List.find?_append, hnone]
      simp
    rw [subscribeOp_of_isSome _ uri sid h', hT, List.map_append]
    have h1 : t.map (fun p => if p.1 == uri then (p.1, insert sid p.2) else p)
        = t := by
      have hid : ∀ p ∈ t,
          (if p.1 == uri then (p.1, insert sid p.2) else p) = id p := by
        intro p hp
        have hne : ¬ (p.1 == uri) = true := List.find?_eq_none.mp hnone p hp
        simp [hne]
      rw [List.map_congr_left hid, List.map_id]
    have h2 : ([((uri, ({sid} : Finset SessionId)))]).map
          (fun p => if p.1 == uri then (p.1, insert sid p.2) else p)
        = [(uri, ({sid} : Finset SessionId))] := by
      simp
    rw [h1, h2]

theorem map_update_eq_self (t : SubTable) (uri : String) (s : Finset SessionId)
    (h : KeysNodup t) (hfind : subsFind t uri = some s) :
    t.map (fun p => if p.1 == uri then (p.1, s) else p) = t := by
  induction t with
  | nil => rfl
  | cons hd tl ih =>
    rw [KeysNodup, List.map_cons, List.nodup_cons] at h
    obtain ⟨hnotin, htl⟩ := h
    rw [List.map_cons]
    by_cases hu : hd.1 = uri
    · rw [subsFind_cons_self hd tl uri hu] at hfind
      have hs : hd.2 = s := by injection hfind
      congr 1
      · have hcond : (hd.1 == uri) = true := by simp [hu]
        rw [if_pos hcond, ← hs]
      · have hid : ∀ p ∈ tl,
            (if p.1 == uri then (p.1, s) else p) = id p := by
          intro p hp
          have : ¬ p.1 = uri := by
            intro hpe
            have hpm : p.1 ∈ tl.map Prod.fst := List.mem_map_of_mem Prod.fst hp
            rw [hpe, ← hu] at hpm
            exact hnotin hpm
          simp [this]
        rw [List.map_congr_left hid, List.map_id]
    · rw [subsFind_cons_of_ne hd tl uri hu] at hfind
      congr 1
      · simp [hu]
      · exact ih htl hfind

theorem subsFind_unsubscribeOp_ne (t : SubTable) (u uri : String)
    (s : SessionId) (h : ¬ u = uri) :
    subsFind (unsubscribeOp t u s) uri = subsFind t uri := by
  cases hfind : subsFind t u with
  | none => simp [unsubscribeOp, hfind]
  | some subs =>
    by_cases hempty : subs = ∅
    · simp [unsubscribeOp, hfind, hempty]
    · by_cases hera : subs.erase s = ∅
      · simp only [unsubscribeOp, hfind, if_neg hempty, if_pos hera]
        rw [subsFind_filterNe, if_neg h]
      · simp only [unsubscribeOp, hfind, if_neg hempty, if_neg hera]
        rw [subsFind_mapUpdate t u uri (fun _ => subs.erase s), if_neg h]

theorem not_mem_unsubscribeOp (t : SubTable) (uri : String) (sid : SessionId) :
    sid ∉ subsLookupD (unsubscribeOp t uri sid) uri := by
  cases hfind : subsFind t uri with
  | none => simp [unsubscribeOp, hfind, subsLookupD]
  | some subs =>
    by_cases hempty : subs = ∅
    · simp [unsubscribeOp, hfind, hempty, subsLookupD]
    · by_cases hera : subs.erase sid = ∅
      · simp only [unsubscribeOp, hfind, if_neg hempty, if_pos hera]
        rw [subsLookupD, subsFind_filterNe, if_pos rfl]
        simp
      · simp only [unsubscribeOp, hfind, if_neg hempty, if_neg hera]
        rw [subsLookupD, subsFind_mapUpdate t uri uri (fun _ => subs.erase sid),
          if_pos rfl, hfind]
        simp

theorem unsubscribeOp_not_subscribed (t : SubTable) (uri : String)
    (sid : SessionId) (hnd : KeysNodup t) (hmem : sid ∉ subsLookupD t uri) :
    unsubscribeOp t uri sid = t := by
  cases hfind : subsFind t uri with
  | none => simp [unsubscribeOp, hfind]
  | some subs =>
    by_cases hempty : subs = ∅
    · simp [unsubscribeOp, hfind, hempty]
    · have hsid : sid ∉ subs := by
        rw [subsLookupD, hfind] at hmem
        simpa using hmem
      have herase : subs.erase sid = subs := Finset.erase_eq_of_not_mem hsid
      simp only [unsubscribeOp, hfind, herase, if_neg hempty]
      exact map_update_eq_self t uri subs hnd hfind

theorem unsubscribeOp_deletes_empty (t : SubTable) (uri : String)
    (sid : SessionId) (subs : Finset SessionId)
    (hfind : subsFind t uri = some subs) (hne : subs ≠ ∅)
    (hera : subs.erase sid = ∅) :
    subsFind (unsubscribeOp t uri sid) uri = none := by
  simp only [unsubscribeOp, hfind, if_neg hne, if_pos hera]
  rw [subsFind_filterNe, if_pos rfl]

theorem mem_unsubscribeOp_self (t : SubTable) (uri : String) (s sid : SessionId)
    (h : sid ∈ subsLookupD (unsubscribeOp t uri s) uri) :
    sid ∈ subsLookupD t uri ∧ ¬ sid = s := by
  cases hfind : subsFind t uri with
  | none =>
    simp only [unsubscribeOp, hfind] at h
    rw [subsLookupD, hfind] at h
    simp at h
  | some subs =>
    by_cases hempty : subs = ∅
    · simp only [unsubscribeOp, hfind, if_pos hempty] at h
      rw [subsLookupD, hfind, hempty] at h
      simp at h
    · by_cases hera : subs.erase s = ∅
      · simp only [unsubscribeOp, hfind, if_neg hempty, if_pos hera] at h
        rw [subsLookupD, subsFind_filterNe, if_pos rfl] at h
        simp at h
      · simp only [unsubscribeOp, hfind, if_neg hempty, if_neg hera] at h
        rw [subsLookupD, subsFind_mapUpdate t uri uri (fun _ => subs.erase s),
          if_pos rfl, hfind] at h
        simp only [Option.map_some', Option.getD_some, Finset.mem_erase] at h
        rw [subsLookupD, hfind]
        exact ⟨h.2, h.1⟩

theorem mem_subscribeOp (t : SubTable) (u : String) (s : SessionId)
    (uri : String) (sid : SessionId)
    (h : sid ∈ subsLookupD (subscribeOp t u s) uri) :
    (uri = u ∧ sid = s) ∨ sid ∈ subsLookupD t uri := by
  rw [subsLookupD, subsFind_subscribeOp] at h
  by_cases hu : u = uri
  · rw [if_pos hu] at h
    simp only [Option.getD_some] at h
    rcases Finset.mem_insert.mp h with h1 | h2
    · exact Or.inl ⟨hu.symm, h1⟩
    · rw [hu] at h2
      exact Or.inr h2
  · rw [if_neg hu] at h
    exact Or.inr h

theorem keysNodup_map_keyPreserving (t : SubTable)
    (f : String × Finset SessionId → String × Finset SessionId)
    (hf : ∀ p, (f p).1 = p.1) (h : KeysNodup t) : KeysNodup (t.map f) := by
  rw [KeysNodup, List.map_map]
  have hcomp : (Prod.fst ∘ f)
      = (Prod.fst : String × Finset SessionId → String) := funext hf
  rw [hcomp]
  exact h

theorem keysNodup_filter (t : SubTable)
    (q : String × Finset SessionId → Bool) (h : KeysNodup t) :
    KeysNodup (t.filter q) := by
  exact List.Nodup.sublist (List.Sublist.map Prod.fst (List.filter_sublist t)) h

theorem keysNodup_subscribeOp (t : SubTable) (uri : String) (sid : SessionId)
    (h : KeysNodup t) : KeysNodup (subscribeOp t uri sid) := by
  by_cases hs : (t.find? (fun p => p.1 == uri)).isSome
  · rw [subscribeOp_of_isSome _ _ _ hs]
    refine keysNodup_map_keyPreserving _ _ ?_ h
    intro p
    by_cases hp : p.1 == uri <;> simp [hp]
  · have hnone := Option.not_isSome_iff_eq_none.mp hs
    rw [subscribeOp_of_none _ _ _ hnone, KeysNodup, List.map_append]
    rw [List.nodup_append]
    refine ⟨h, List.nodup_singleton _, ?_⟩
    intro a ha hmem
    simp only [List.map_cons, List.map_nil, List.mem_singleton] at hmem
    obtain ⟨p, hp, hpa⟩ := List.mem_map.mp ha
    have := List.find?_eq_none.mp hnone p hp
    rw [hpa, hmem] at this
    simp at this

theorem keysNodup_unsubscribeOp (t : SubTable) (uri : String) (sid : SessionId)
    (h : KeysNodup t) : KeysNodup (unsubscribeOp t uri sid) := by
  cases hfind : subsFind t uri with
  | none => simpa [unsubscribeOp, hfind] using h
  | some subs =>
    by_cases hempty : subs = ∅
    · simpa [unsubscribeOp, hfind, hempty] using h
    · by_cases hera : subs.erase sid = ∅
      · simp only [unsubscribeOp, hfind, if_neg hempty, if_pos hera]
        exact keysNodup_filter _ _ h
      · simp only [unsubscribeOp, hfind, if_neg hempty, if_neg hera]
        refine keysNodup_map_keyPreserving _ _ ?_ h
        intro p
        by_cases hp : p.1 == uri <;> simp [hp]

theorem keysNodup_drop_session (t : SubTable) (sid : SessionId)
    (h : KeysNodup t) : KeysNodup (drop_session t sid) := by
  unfold drop_session
  apply keysNodup_filter
  refine keysNodup_map_keyPreserving _ _ ?_ h
  intro p
  rfl

theorem keysNodup_subStep (t : SubTable) (e : SubEvent) (h : KeysNodup t) :
    KeysNodup (subStep t e) := by
  cases e with
  | subscribe u os =>
    cases os with
    | none => exact h
    | some s => exact keysNodup_subscribeOp t u s h
  | unsubscribe u os =>
    cases os with
    | none => exact h
    | some s => exact keysNodup_unsubscribeOp t u s h
  | disconnect s => exact keysNodup_drop_session t s h

theorem keysNodup_foldl (evs : List SubEvent) :
    ∀ t, KeysNodup t → KeysNodup (evs.foldl subStep t) := by
  induction evs with
  | nil => intro t h; exact h
  | cons e rest ih =>
    intro t h
    exact ih (subStep t e) (keysNodup_subStep t e h)

theorem keysNodup_runEvents (evs : List SubEvent) : KeysNodup (runEvents evs) :=
  keysNodup_foldl evs [] List.nodup_nil

theorem subsFind_drop_session (t : SubTable) (sid : SessionId) (uri : String)
    (h : KeysNodup t) :
    subsFind (drop_session t sid) uri
      = (subsFind t uri).bind
          (fun s => if s.erase sid = ∅ then none else some (s.erase sid)) := by
  induction t with
  | nil => rfl
  | cons hd tl ih =>
    rw [KeysNodup, List.map_cons, List.nodup_cons] at h
    obtain ⟨hnotin, htl⟩ := h
    by_cases hera : hd.2.erase sid = ∅
    · have hstep : drop_session (hd :: tl) sid = drop_session tl sid := by
        simp [drop_session, List.filter_cons, hera]
      rw [hstep]
      by_cases hu : hd.1 = uri
      · have htlnone : subsFind tl uri = none := by
          rw [subsFind, List.find?_eq_none.mpr]
          · rfl
          · intro p hp
            simp only [beq_iff_eq]
            intro hpe
            have hpm : p.1 ∈ tl.map Prod.fst := List.mem_map_of_mem Prod.fst hp
            rw [hpe, ← hu] at hpm
            exact hnotin hpm
        have hdropnone : subsFind (drop_session tl sid) uri = none := by
          rw [ih htl, htlnone]
          rfl
        rw [hdropnone, subsFind_cons_self hd tl uri hu]
        simp [hera]
      · rw [subsFind_cons_of_ne hd tl uri hu]
        exact ih htl
    · have hstep : drop_session (hd :: tl) sid
          = (hd.1, hd.2.erase sid) :: drop_session tl sid := by
        simp [drop_session, List.filter_cons, hera]
      rw [hstep]
      by_cases hu : hd.1 = uri
      · rw [subsFind_cons_self hd tl uri hu,
          subsFind_cons_self (hd.1, hd.2.erase sid) (drop_session tl sid) uri hu]
        simp [hera]
      · rw [subsFind_cons_of_ne hd tl uri hu,
          subsFind_cons_of_ne (hd.1, hd.2.erase sid) (drop_session tl sid) uri
            hu]
        exact ih htl

theorem mem_drop_session (t : SubTable) (sid' sid : SessionId) (uri : String)
    (h : KeysNodup t) (hmem : sid' ∈ subsLookupD (drop_session t sid) uri) :
    sid' ∈ subsLookupD t uri ∧ ¬ sid' = sid := by
  rw [subsLookupD, subsFind_drop_session t sid uri h] at hmem
  cases hfind : subsFind t uri with
  | none =>
    rw [hfind] at hmem
    simp at hmem
  | some s =>
    rw [hfind] at hmem
    by_cases hera : s.erase sid = ∅
    · simp [hera] at hmem
    · simp only [Option.some_bind, if_neg hera, Option.getD_some] at hmem
      rw [subsLookupD, hfind]
      exact ⟨(Finset.mem_erase.mp hmem).2, (Finset.mem_erase.mp hmem).1⟩

theorem mem_runEvents_active (evs : List SubEvent) (uri : String)
    (sid : SessionId) (h : sid ∈ subsLookupD (runEvents evs) uri) :
    activeSub evs uri sid = true := by
  induction evs using List.reverseRecOn with
  | nil => simp [runEvents, subsLookupD, subsFind] at h
  | append_singleton l e ih =>
    have hrun : runEvents (l ++ [e]) = subStep (runEvents l) e := by
      simp [runEvents, List.foldl_append]
    rw [hrun] at h
    have hact : activeSub (l ++ [e]) uri sid
        = activeSubAux uri sid (e :: l.reverse) := by
      simp [activeSub, List.reverse_append]
    rw [hact]
    cases e with
    | subscribe u os =>
      cases os with
      | none =>
        simp only [subStep, handle_subscribe] at h
        simp only [activeSubAux]
        exact ih h
      | some s =>
        simp only [subStep, handle_subscribe] at h
        rcases mem_subscribeOp _ u s uri sid h with ⟨huu, hss⟩ | hmem
        · simp [activeSubAux, huu, hss]
        · simp only [activeSubAux]
          rw [activeSub] at ih
          rw [ih hmem, Bool.or_true]
    | unsubscribe u os =>
      cases os with
      | none =>
        simp only [subStep, handle_unsubscribe] at h
        simp only [activeSubAux]
        exact ih h
      | some s =>
        simp only [subStep, handle_unsubscribe] at h
        by_cases huu : u = uri
        · subst huu
          obtain ⟨hmem, hne⟩ := mem_unsubscribeOp_self _ _ _ _ h
          simp only [activeSubAux]
          rw [if_neg (by simp; intro hs; exact hne hs.symm)]
          exact ih hmem
        · rw [subsLookupD, subsFind_unsubscribeOp_ne (runEvents l) u uri s huu,
            ← subsLookupD] at h
          simp only [activeSubAux]
          rw [if_neg (by simp; intro hu; exact absurd hu huu)]
          exact ih h
    | disconnect s =>
      simp only [subStep] at h
      obtain ⟨hmem, hne⟩ :=
        mem_drop_session (runEvents l) sid s uri (keysNodup_runEvents l) h
      simp only [activeSubAux]
      rw [if_neg (by simp; intro hs; exact hne hs.symm)]
      exact ih hmem

/-- C2: in every state of the subscription table reachable from the empty
table, a session id appears under a URI only if a subscribe with a resolved
session occurred and no matching unsubscribe or disconnect has occurred
since; and `drop_session` removes the session from every URI's subscriber
set, deleting a URI entry whose set becomes empty. -/
theorem C2_subscription_invariant :
    (∀ (evs : List SubEvent) (uri : String) (sid : SessionId),
        sid ∈ subsLookupD (runEvents evs) uri → activeSub evs uri sid = true)
    ∧ (∀ (t : SubTable) (sid : SessionId), KeysNodup t → ∀ uri : String,
        subsFind (drop_session t sid) uri
          = (subsFind t uri).bind
              (fun s => if s.erase sid = ∅ then none
                        else some (s.erase sid))) := by
  constructor
  · exact mem_runEvents_active
  · intro t sid h uri
    exact subsFind_drop_session t sid uri h

/-- Witness for C2: a concrete subscribe makes the pair active, and a
concrete `drop_session` removes the session everywhere, deleting the entry
that becomes empty. -/
theorem C2_subscription_invariant_witness :
    activeSub [SubEvent.subscribe "data://live" (some 1)] "data://live" 1
      = true
    ∧ subsFind (drop_session [("data://live", {1}), ("a", {1, 2})] 1) "a"
        = (subsFind [("data://live", {1}), ("a", {1, 2})] "a").bind
            (fun s => if s.erase 1 = ∅ then none else some (s.erase 1)) :=
  ⟨C2_subscription_invariant.1 [SubEvent.subscribe "data://live" (some 1)]
      "data://live" 1 (by decide),
   C2_subscription_invariant.2 [("data://live", {1}), ("a", {1, 2})] 1
      (by unfold KeysNodup; decide) "a"⟩

/-- C6: resources/subscribe is idempotent — subscribing twice leaves the
table in the same state as subscribing once — and a subscribe request with
no resolvable current session leaves the table unchanged. -/
theorem C6_subscribe_idempotent :
    (∀ (t : SubTable) (uri : String) (sid : SessionId),
        handle_subscribe (handle_subscribe t uri (some sid)) uri (some sid)
          = handle_subscribe t uri (some sid))
    ∧ (∀ (t : SubTable) (uri : String), handle_subscribe t uri none = t) :=
  ⟨fun t uri sid => subscribeOp_idem t uri sid, fun _ _ => rfl⟩

/-- C7: resources/unsubscribe removes the session from the URI's subscriber
set; on a session that never subscribed (or a URI with no entry) it is a
no-op returning normally; and when the removal leaves the set empty the URI
entry is deleted entirely. -/
theorem C7_unsubscribe (t : SubTable) (uri : String) (sid : SessionId)
    (subs : Finset SessionId) (hnd : KeysNodup t) :
    (sid ∉ subsLookupD (handle_unsubscribe t uri (some sid)) uri)
    ∧ (sid ∉ subsLookupD t uri → handle_unsubscribe t uri (some sid) = t)
    ∧ (subsFind t uri = some subs → subs ≠ ∅ → subs.erase sid = ∅ →
        subsFind (handle_unsubscribe t uri (some sid)) uri = none) :=
  ⟨not_mem_unsubscribeOp t uri sid,
   fun h => unsubscribeOp_not_subscribed t uri sid hnd h,
   fun h1 h2 h3 => unsubscribeOp_deletes_empty t uri sid subs h1 h2 h3⟩

/-- Witness for C7: unsubscribing 1 from {1, 2} removes it; unsubscribing a
never-subscribed session 3 leaves the table untouched; unsubscribing the
last subscriber deletes the URI entry. -/
theorem C7_unsubscribe_witness :
    (1 : SessionId) ∉ subsLookupD (handle_unsubscribe [("u", {1, 2})] "u"
        (some 1)) "u"
    ∧ handle_unsubscribe [("u", ({1, 2} : Finset SessionId))] "u" (some 3)
        = [("u", {1, 2})]
    ∧ subsFind (handle_unsubscribe [("u", ({2} : Finset SessionId))] "u"
        (some 2)) "u" = none :=
  ⟨(C7_unsubscribe [("u", {1, 2})] "u" 1 ∅ (by unfold KeysNodup; decide)).1,
   (C7_unsubscribe [("u", {1, 2})] "u" 3 ∅
     (by unfold KeysNodup; decide)).2.1 (by decide),
   (C7_unsubscribe [("u", {2})] "u" 2 {2} (by unfold KeysNodup; decide)).2.2
     (by decide) (by decide) (by decide)⟩

/-! ### Broadcast lemmas -/

theorem mem_notifyLoop (subs : Finset SessionId) (uri : String)
    (active : List Session) (d : Delivery) :
    d ∈ notifyLoop subs uri active
      ↔ ∃ s ∈ active, s.sid ∈ subs ∧ s.sendOk = true ∧ d = ⟨s.sid, uri⟩ := by
  induction active with
  | nil => simp [notifyLoop]
  | cons hd tl ih =>
    by_cases hmem : hd.sid ∈ subs
    · by_cases hok : hd.sendOk = true
      · have hsend : send_resource_updated hd uri = Except.ok ⟨hd.sid, uri⟩ := by
          simp [send_resource_updated, hok]
        simp only [notifyLoop, if_pos hmem, hsend]
        rw [List.mem_cons, ih]
        constructor
        · rintro (rfl | ⟨s, hs, h1, h2, h3⟩)
          · exact ⟨hd, List.mem_cons_self hd tl, hmem, hok, rfl⟩
          · exact ⟨s, List.mem_cons_of_mem hd hs, h1, h2, h3⟩
        · rintro ⟨s, hs, h1, h2, h3⟩
          rcases List.mem_cons.mp hs with rfl | hs'
          · exact Or.inl h3
          · exact Or.inr ⟨s, hs', h1, h2, h3⟩
      · have hsend : send_resource_updated hd uri = Except.error () := by
          simp [send_resource_updated, hok]
        simp only [notifyLoop, if_pos hmem, hsend, ih]
        constructor
        · rintro ⟨s, hs, h1, h2, h3⟩
          exact ⟨s, List.mem_cons_of_mem hd hs, h1, h2, h3⟩
        · rintro ⟨s, hs, h1, h2, h3⟩
          rcases List.mem_cons.mp hs with rfl | hs'
          · exact absurd h2 hok
          · exact ⟨s, hs', h1, h2, h3⟩
    · simp only [notifyLoop, if_neg hmem, ih]
      constructor
      · rintro ⟨s, hs, h1, h2, h3⟩
        exact ⟨s, List.mem_cons_of_mem hd hs, h1, h2, h3⟩
      · rintro ⟨s, hs, h1, h2, h3⟩
        rcases List.mem_cons.mp hs with rfl | hs'
        · exact absurd h1 hmem
        · exact ⟨s, hs', h1, h2, h3⟩

theorem count_notifyLoop_eq_one (subs : Finset SessionId) (uri : String)
    (active : List Session) (s : Session)
    (hnd : (active.map Session.sid).Nodup) (hs : s ∈ active)
    (hmem : s.sid ∈ subs) (hok : s.sendOk = true) :
    (notifyLoop subs uri active).count ⟨s.sid, uri⟩ = 1 := by
  induction active with
  | nil => simp at hs
  | cons hd tl ih =>
    rw [List.map_cons, List.nodup_cons] at hnd
    obtain ⟨hnotin, htl⟩ := hnd
    rcases List.mem_cons.mp hs with rfl | hs'
    · have hsend : send_resource_updated s uri = Except.ok ⟨s.sid, uri⟩ := by
        simp [send_resource_updated, hok]
      simp only [notifyLoop, if_pos hmem, hsend]
      rw [List.count_cons_self]
      have hzero : (notifyLoop subs uri tl).count ⟨s.sid, uri⟩ = 0 := by
        rw [List.count_eq_zero]
        intro hcontra
        obtain ⟨s', hs', _, _, hdeq⟩ := (mem_notifyLoop subs uri tl _).mp hcontra
        have heq : s.sid = s'.sid := by
          injection hdeq
        exact hnotin (heq ▸ List.mem_map_of_mem Session.sid hs')
      rw [hzero]
    · have hne : hd.sid ≠ s.sid := by
        intro he
        exact hnotin (he ▸ List.mem_map_of_mem Session.sid hs')
      by_cases hmemhd : hd.sid ∈ subs
      · by_cases hokhd : hd.sendOk = true
        · have hsend : send_resource_updated hd uri
              = Except.ok ⟨hd.sid, uri⟩ := by
            simp [send_resource_updated, hokhd]
          simp only [notifyLoop, if_pos hmemhd, hsend]
          have hneq : (⟨s.sid, uri⟩ : Delivery) ≠ ⟨hd.sid, uri⟩ := by
            simp only [ne_eq, Delivery.mk.injEq]
            intro h
            exact hne h.1.symm
          rw [List.count_cons_of_ne hneq, ih htl hs']
        · have hsend : send_resource_updated hd uri = Except.error () := by
            simp [send_resource_updated, hokhd]
          simp only [notifyLoop, if_pos hmemhd, hsend]
          exact ih htl hs'
      · simp only [notifyLoop, if_neg hmemhd]
        exact ih htl hs'

theorem notify_delivers_only_subscribers (t : SubTable) (active : List Session)
    (uri : String) (d : Delivery)
    (hd : d ∈ (notify_resource_updated t active uri).1) :
    d.sid ∈ subsLookupD t uri ∧ d.uri = uri
      ∧ d.sid ∈ active.map Session.sid := by
  cases hfind : subsFind t uri with
  | none =>
    simp only [notify_resource_updated, hfind] at hd
    simp at hd
  | some subs =>
    by_cases hempty : subs = ∅
    · simp only [notify_resource_updated, hfind, if_pos hempty] at hd
      simp at hd
    · simp only [notify_resource_updated, hfind, if_neg hempty] at hd
      obtain ⟨s', hs', h1, h2, h3⟩ := (mem_notifyLoop subs uri active d).mp hd
      subst h3
      refine ⟨?_, rfl, List.mem_map_of_mem Session.sid hs'⟩
      rw [subsLookupD, hfind]
      exact h1

theorem notify_delivers_to_subscriber (t : SubTable) (active : List Session)
    (uri : String) (s : Session) (hs : s ∈ active)
    (hmem : s.sid ∈ subsLookupD t uri) (hok : s.sendOk = true) :
    (⟨s.sid, uri⟩ : Delivery) ∈ (notify_resource_updated t active uri).1 := by
  cases hfind : subsFind t uri with
  | none =>
    rw [subsLookupD, hfind] at hmem
    simp at hmem
  | some subs =>
    rw [subsLookupD, hfind] at hmem
    simp only [Option.getD_some] at hmem
    have hne : ¬ subs = ∅ := by
      intro h
      rw [h] at hmem
      simp at hmem
    simp only [notify_resource_updated, hfind, if_neg hne]
    exact (mem_notifyLoop subs uri active _).mpr ⟨s, hs, hmem, hok, rfl⟩

/-- C3: after `subscribe(uri, s)`, `notify(uri)` with `s` live in the
session registry delivers exactly one resource-updated notification carrying
that URI to `s` and none to any session not subscribed to the URI; and
(third conjunct, stated for an arbitrary table) every live subscriber whose
send succeeds receives its delivery no matter which other subscribers'
sends raise — a raise is swallowed and the loop continues, and `notify`
returns normally to its caller. -/
theorem C3_notify_after_subscribe (t : SubTable) (uri : String) (s : Session)
    (active : List Session) (hnd : (active.map Session.sid).Nodup)
    (hs : s ∈ active) (hok : s.sendOk = true) :
    ((notify_resource_updated (subscribeOp t uri s.sid) active uri).1.count
        ⟨s.sid, uri⟩ = 1)
    ∧ (∀ sid', sid' ∉ subsLookupD (subscribeOp t uri s.sid) uri →
        ∀ d ∈ (notify_resource_updated (subscribeOp t uri s.sid) active uri).1,
          d.sid ≠ sid')
    ∧ (∀ t₂ : SubTable, ∀ s₂ ∈ active, s₂.sid ∈ subsLookupD t₂ uri →
        s₂.sendOk = true →
        (⟨s₂.sid, uri⟩ : Delivery)
          ∈ (notify_resource_updated t₂ active uri).1) := by
  refine ⟨?_, ?_, ?_⟩
  · have hfind : subsFind (subscribeOp t uri s.sid) uri
        = some (insert s.sid (subsLookupD t uri)) := by
      rw [subsFind_subscribeOp, if_pos rfl]
    have hne : ¬ insert s.sid (subsLookupD t uri) = ∅ :=
      Finset.insert_ne_empty _ _
    simp only [notify_resource_updated, hfind, if_neg hne]
    exact count_notifyLoop_eq_one _ uri active s hnd hs
      (Finset.mem_insert_self _ _) hok
  · intro sid' hnot d hdmem
    obtain ⟨h1, _, _⟩ :=
      notify_delivers_only_subscribers _ active uri d hdmem
    exact fun he => hnot (he ▸ h1)
  · intro t₂ s₂ hs₂ hm ho
    exact notify_delivers_to_subscriber t₂ active uri s₂ hs₂ hm ho

/-- Witness for C3: with sessions 1 (healthy) and 2 (send raises) live,
subscribing session 1 and notifying delivers exactly once to 1; and with
both 1 and 2 subscribed and 2's send raising before 1 is reached in the
loop, 1 still receives its delivery. -/
theorem C3_notify_after_subscribe_witness :
    ((notify_resource_updated (subscribeOp [] "data://live" 1)
        [⟨1, true⟩, ⟨2, false⟩] "data://live").1.count ⟨1, "data://live"⟩ = 1)
    ∧ (⟨1, "data://live"⟩ : Delivery)
        ∈ (notify_resource_updated [("data://live", {1, 2})]
            [⟨2, false⟩, ⟨1, true⟩] "data://live").1 :=
  ⟨(C3_notify_after_subscribe [] "data://live" ⟨1, true⟩
      [⟨1, true⟩, ⟨2, false⟩] (by decide) (by decide) rfl).1,
   (C3_notify_after_subscribe [] "data://live" ⟨1, true⟩
      [⟨2, false⟩, ⟨1, true⟩] (by decide) (by decide) rfl).2.2
      [("data://live", {1, 2})] ⟨1, true⟩ (by decide) (by decide) rfl⟩

/-- C10: `notify_resource_updated` never mutates the subscription table —
the table after the call equals the table before, subscribers whose
sessions are not in the active-session registry get no delivery yet remain
subscribed, and no URI entry is pruned by notification. -/
theorem C10_notify_frame (t : SubTable) (active : List Session)
    (uri : String) :
    ((notify_resource_updated t active uri).2 = t)
    ∧ (∀ sid, sid ∉ active.map Session.sid →
        ∀ d ∈ (notify_resource_updated t active uri).1, d.sid ≠ sid)
    ∧ (∀ (uri' : String) (sid : SessionId), sid ∈ subsLookupD t uri' →
        sid ∈ subsLookupD (notify_resource_updated t active uri).2 uri') := by
  have hframe : (notify_resource_updated t active uri).2 = t := by
    cases hfind : subsFind t uri with
    | none => simp only [notify_resource_updated, hfind]
    | some subs =>
      by_cases hempty : subs = ∅
      · simp only [notify_resource_updated, hfind, if_pos hempty]
      · simp only [notify_resource_updated, hfind, if_neg hempty]
  refine ⟨hframe, ?_, ?_⟩
  · intro sid hnot d hdmem
    obtain ⟨_, _, hin⟩ :=
      notify_delivers_only_subscribers t active uri d hdmem
    exact fun he => hnot (he ▸ hin)
  · intro uri' sid hmem
    rw [hframe]
    exact hmem

/-- Witness for C10: session 1 is subscribed but not active; notifying
leaves the table intact, the delivery that does occur goes to session 2, and
1 is still subscribed afterwards. -/
theorem C10_notify_frame_witness :
    (notify_resource_updated [("u", {1, 2})] [⟨2, true⟩] "u").2
      = [("u", {1, 2})]
    ∧ (⟨2, "u"⟩ : Delivery).sid ≠ 1
    ∧ (1 : SessionId) ∈ subsLookupD
        (notify_resource_updated [("u", {1, 2})] [⟨2, true⟩] "u").2 "u" :=
  ⟨(C10_notify_frame [("u", {1, 2})] [⟨2, true⟩] "u").1,
   (C10_notify_frame [("u", {1, 2})] [⟨2, true⟩] "u").2.1 1 (by decide)
     ⟨2, "u"⟩ (by decide),
   (C10_notify_frame [("u", {1, 2})] [⟨2, true⟩] "u").2.2 "u" 1 (by decide)⟩

/-! ### Middleware-pipeline lemmas -/

theorem processChain_count_terminal (l : List (Nat × Interceptor)) (ctx : Nat)
    (T : Nat → Nat) :
    (processChain l ctx T).2.count MWEvent.terminal
      = if chainShortCircuits (l.map Prod.snd) ctx then 0 else 1 := by
  induction l generalizing ctx with
  | nil => simp [processChain, chainShortCircuits]
  | cons hd rest ih =>
    obtain ⟨i, mw⟩ := hd
    cases hmw : mw ctx with
    | shortCircuit v =>
      have hsc : chainShortCircuits (((i, mw) :: rest).map Prod.snd) ctx
          = true := by
        simp only [List.map_cons, chainShortCircuits, hmw]
      simp only [processChain, hmw, hsc, if_pos]
      simp
    | forward f g =>
      have hsc : chainShortCircuits (((i, mw) :: rest).map Prod.snd) ctx
          = chainShortCircuits (rest.map Prod.snd) (f ctx) := by
        simp only [List.map_cons, chainShortCircuits, hmw]
      simp only [processChain, hmw, hsc]
      rw [List.count_cons_of_ne (by simp)]
      exact ih (f ctx)

/-- C4: in the middleware chain `[I1, I2]` wrapping terminal handler `T`, a
short-circuit by `I1` yields its value with neither `I2` nor `T` invoked; if
neither short-circuits, the invocation order is `I1`, `I2`, `T`, with `T`'s
result flowing back through `I2`'s then `I1`'s result rewrites; and for every
chain and context, the terminal handler runs exactly once when no
interceptor short-circuits and exactly zero times otherwise. -/
theorem C4_middleware_chain (I1 I2 : Interceptor) (T : Nat → Nat)
    (ctx : Nat) :
    (∀ v, I1 ctx = IAction.shortCircuit v →
        process [I1, I2] ctx T = (v, [MWEvent.enter 0]))
    ∧ (∀ f1 g1 f2 g2, I1 ctx = IAction.forward f1 g1 →
        I2 (f1 ctx) = IAction.forward f2 g2 →
        process [I1, I2] ctx T
          = (g1 (g2 (T (f2 (f1 ctx)))),
             [MWEvent.enter 0, MWEvent.enter 1, MWEvent.terminal]))
    ∧ (∀ (mws : List Interceptor) (c : Nat),
        (process mws c T).2.count MWEvent.terminal
          = if chainShortCircuits mws c then 0 else 1) := by
  refine ⟨?_, ?_, ?_⟩
  · intro v h1
    simp only [process, List.enum, List.enumFrom, processChain, h1]
  · intro f1 g1 f2 g2 h1 h2
    simp only [process, List.enum, List.enumFrom, processChain, h1, h2]
  · intro mws c
    rw [process, processChain_count_terminal, List.enum_map_snd]

/-- Witness for C4: a concrete short-circuiting chain and a concrete
pass-through chain, with the exact traces and results. -/
theorem C4_middleware_chain_witness :
    process [fun _ => IAction.shortCircuit 7, fun _ => IAction.forward id id]
        0 (fun c => c + 1)
      = (7, [MWEvent.enter 0])
    ∧ process [fun _ => IAction.forward (fun c => c + 10) (fun r => r * 2),
               fun _ => IAction.forward id id] 5 (fun c => c + 1)
      = (32, [MWEvent.enter 0, MWEvent.enter 1, MWEvent.terminal]) :=
  ⟨(C4_middleware_chain (fun _ => IAction.shortCircuit 7)
      (fun _ => IAction.forward id id) (fun c => c + 1) 0).1 7 rfl,
   ((C4_middleware_chain
      (fun _ => IAction.forward (fun c => c + 10) (fun r => r * 2))
      (fun _ => IAction.forward id id) (fun c => c + 1) 5).2.1
      (fun c => c + 10) (fun r => r * 2) id id rfl rfl).trans (by decide)⟩

/-- C8: the elicitation round-trip for the dataclass schema
`name: str = "Anonymous"`, `age: int = 0` — an acceptance response carrying
`{name: "x", age: 5}` yields a dataclass instance with those field values;
each dataclass field maps to its declared type together with its default,
its default factory, or required when neither exists; and decline or
cancellation produce the outcome tag with no data. -/
theorem C8_elicit_roundtrip :
    (Context.elicit UserInputFields ElicitAction.accept
        [("name", PyValue.str "x"), ("age", PyValue.int 5)]
      = ElicitOutcome.accepted
          [("name", PyValue.str "x"), ("age", PyValue.int 5)])
    ∧ (∀ (flds : List DCField) (content : List (String × PyValue)),
        Context.elicit flds ElicitAction.decline content
          = ElicitOutcome.declined)
    ∧ (∀ (flds : List DCField) (content : List (String × PyValue)),
        Context.elicit flds ElicitAction.cancel content
          = ElicitOutcome.cancelled)
    ∧ (∀ flds : List DCField, ∀ f ∈ flds,
        (∀ v, f.default = some v →
          (⟨f.name, f.ftype, ModelDefault.val v⟩ : ModelField)
            ∈ Context.dataclass_to_model flds)
        ∧ (∀ v, f.default = none → f.default_factory = some v →
          (⟨f.name, f.ftype, ModelDefault.factory v⟩ : ModelField)
            ∈ Context.dataclass_to_model flds)
        ∧ (f.default = none → f.default_factory = none →
          (⟨f.name, f.ftype, ModelDefault.required⟩ : ModelField)
            ∈ Context.dataclass_to_model flds)) := by
  refine ⟨by decide, fun _ _ => rfl, fun _ _ => rfl, ?_⟩
  intro flds f hf
  refine ⟨?_, ?_, ?_⟩
  · intro v hv
    rw [Context.dataclass_to_model, List.mem_map]
    exact ⟨f, hf, by simp [hv]⟩
  · intro v hd hdf
    rw [Context.dataclass_to_model, List.mem_map]
    exact ⟨f, hf, by simp [hd, hdf]⟩
  · intro hd hdf
    rw [Context.dataclass_to_model, List.mem_map]
    exact ⟨f, hf, by simp [hd, hdf]⟩

/-- Witness for C8: the `name` field of `UserInput` synthesizes to a string
field with default `"Anonymous"`, and a concrete decline carries no data. -/
theorem C8_elicit_roundtrip_witness :
    (⟨"name", PyType.str, ModelDefault.val (PyValue.str "Anonymous")⟩ :
        ModelField) ∈ Context.dataclass_to_model UserInputFields
    ∧ Context.elicit UserInputFields ElicitAction.decline []
        = ElicitOutcome.declined :=
  ⟨(C8_elicit_roundtrip.2.2.2 UserInputFields
      ⟨"name", PyType.str, some (PyValue.str "Anonymous"), none⟩
      (by decide)).1 (PyValue.str "Anonymous") rfl,
   C8_elicit_roundtrip.2.1 UserInputFields []⟩

/-- C9 (code bug): `Context.sample` forwards a plain-string element of
`messages` to `session.create_message` unchanged; the coercion of plain
strings to user-role text sampling messages described by the spec (and by
the function's own signature and docstring) never happens —
`Context._text_message` is defined in the source but never called. -/
theorem C9_sample_no_coercion :
    Context.sampleMessagesSent [SampleMessage.text "hello"]
      = [SampleMessage.text "hello"]
    ∧ specSampleCoercion [SampleMessage.text "hello"]
      = [SampleMessage.message "user" "hello"]
    ∧ Context.sampleMessagesSent [SampleMessage.text "hello"]
      ≠ specSampleCoercion [SampleMessage.text "hello"] := by
  refine ⟨rfl, rfl, ?_⟩
  decide

end MCPUse
